import Mathlib

/-!
Verification of the participant transcription lifecycle manager of
bbb-livekit-stt: a shallow embedding of the configuration coercion helpers
(src/utils.py), the locale normalizer, the in-process event emitter, the
per-participant lifecycle operations and the transcription pipeline runner,
together with proofs of the specified properties.
-/

namespace BBBLivekitStt

/-! ## Python value model

Python runtime values as they reach the coercion helpers in src/utils.py:
booleans, ints, floats (modelled as rationals; IEEE special values are outside
the model), strings, `None`, and a stand-in for any other object.
-/

inductive PyValue where
  | bool (b : Bool)
  | int (n : ℤ)
  | float (q : ℚ)
  | str (s : String)
  | none
  | other
deriving DecidableEq, Repr

/-- Python `str.lower()` restricted to basic latin letters (the locales and
flag words handled by the code are ASCII). -/
def strToLower (s : String) : String := ⟨s.data.map Char.toLower⟩

/-- Python `str.strip()` on ASCII whitespace: drop leading and trailing
whitespace characters. -/
def pyStrip (s : String) : String :=
  ⟨((s.data.dropWhile Char.isWhitespace).reverse.dropWhile Char.isWhitespace).reverse⟩

/-- The truthy flag words of `coerce_partial_utterances` (src/utils.py). -/
def truthyStrings : List String := ["true", "1", "t", "yes", "y"]

/-- The falsy flag words of `coerce_partial_utterances` (src/utils.py). -/
def falsyStrings : List String := ["false", "0", "f", "no", "n"]

/-- src/utils.py `coerce_partial_utterances(value, default)`: a `bool` is
returned unchanged; an `int` or `float` is compared against zero; a string is
stripped, lowercased and matched against the truthy/falsy word sets; anything
else yields the default. -/
def coerce_partial_utterances (value : PyValue) (default : Bool) : Bool :=
  match value with
  | .bool b => b
  | .int n => decide (n ≠ 0)
  | .float q => decide (q ≠ 0)
  | .str s =>
    let normalized := strToLower (pyStrip s)
    if normalized ∈ truthyStrings then true
    else if normalized ∈ falsyStrings then false
    else default
  | .none => default
  | .other => default

/-- Numeric value of a list of decimal digit characters. -/
def digitsVal (l : List Char) : ℕ :=
  l.foldl (fun acc c => acc * 10 + (c.toNat - 48)) 0

/-- Parse an unsigned decimal literal (`digits`, `digits.digits`, `digits.`
or `.digits`), the decimal core of Python `float(str)`. -/
def parseUnsignedFloat (l : List Char) : Option ℚ :=
  let intPart := l.takeWhile Char.isDigit
  let rest := l.dropWhile Char.isDigit
  match rest with
  | [] => if intPart.isEmpty then Option.none else some ((digitsVal intPart : ℚ))
  | '.' :: frac =>
    if frac.all Char.isDigit && !(intPart.isEmpty && frac.isEmpty) then
      some ((digitsVal intPart : ℚ) + (digitsVal frac : ℚ) / ((10 : ℚ) ^ frac.length))
    else Option.none
  | _ => Option.none

/-- Python `float(str)` on decimal literals: strip whitespace, optional sign,
then an unsigned decimal literal; `Option.none` is the `ValueError` case. -/
def pyParseFloat (s : String) : Option ℚ :=
  match (pyStrip s).data with
  | '-' :: rest => (parseUnsignedFloat rest).map (fun q => -q)
  | '+' :: rest => parseUnsignedFloat rest
  | l => parseUnsignedFloat l

/-- Python `float(value)` on an arbitrary value: numbers convert, strings
parse as decimal literals, everything else raises (`Option.none` stands for
`TypeError`/`ValueError`). -/
def pyFloat (value : PyValue) : Option ℚ :=
  match value with
  | .bool b => some (if b then 1 else 0)
  | .int n => some ((n : ℚ))
  | .float q => some q
  | .str s => pyParseFloat s
  | .none => Option.none
  | .other => Option.none

/-- src/utils.py `coerce_min_utterance_length_seconds(value, default)`:
`None` and the empty string yield the default; an unparsable value yields the
default (after a warning); a negative parse is clamped to the default; a
non-negative parse is returned. -/
def coerce_min_utterance_length_seconds (value : PyValue) (default : ℚ) : ℚ :=
  if value = .none ∨ value = .str "" then default
  else
    match pyFloat value with
    | Option.none => default
    | some parsed => if parsed < 0 then default else parsed

/-! ## Locale normalizer -/

/-- Characters of a tag up to (and excluding) the first `-` separator. -/
def takeUntilDash : List Char → List Char
  | [] => []
  | c :: cs => if c = '-' then [] else c :: takeUntilDash cs

/-- Modelled from the spec: the Locale Normalizer `_sanitize_locale` of the
lifecycle manager (gladia_stt_agent.py, not shipped under src/). Given a
BCP-47-like tag it returns the lowercase primary language subtag only; a
string without a `-` separator is lowercased and returned unchanged. -/
def _sanitize_locale (locale : String) : String :=
  ⟨(takeUntilDash locale.data).map Char.toLower⟩

/-! ## Event emitter

Modelled from the spec: the in-process publish/subscribe bus (events.py, not
shipped under src/). Handlers are identified by numeric tokens; the emitter
keeps, per event name, the list of handlers in registration order.
-/

structure EventEmitter where
  listeners : List (String × List ℕ)
deriving DecidableEq, Repr

/-- Association-list lookup (Python `dict.get`). -/
def lookupKey {α : Type} (k : String) : List (String × α) → Option α
  | [] => Option.none
  | (k₁, v) :: rest => if k₁ = k then some v else lookupKey k rest

/-- Association-list insertion/replacement (Python `dict.__setitem__`:
replaces in place, otherwise appends, preserving insertion order). -/
def insertKey {α : Type} (k : String) (v : α) : List (String × α) → List (String × α)
  | [] => [(k, v)]
  | (k₁, v₁) :: rest => if k₁ = k then (k, v) :: rest else (k₁, v₁) :: insertKey k v rest

/-- Association-list removal (Python `dict.pop(k, None)`). -/
def eraseKey {α : Type} (k : String) : List (String × α) → List (String × α)
  | [] => []
  | (k₁, v₁) :: rest => if k₁ = k then eraseKey k rest else (k₁, v₁) :: eraseKey k rest

/-- Number of entries stored under a key. -/
def countKey {α : Type} (k : String) (l : List (String × α)) : ℕ :=
  (l.filter (fun kv => kv.1 = k)).length

/-- Modelled from the spec: `EventEmitter.on` (events.py) registers a handler
under an event name; all handlers for a name are retained in registration
order. -/
def EventEmitter.on (em : EventEmitter) (name : String) (handler : ℕ) : EventEmitter :=
  match lookupKey name em.listeners with
  | Option.none => ⟨insertKey name [handler] em.listeners⟩
  | some hs => ⟨insertKey name (hs ++ [handler]) em.listeners⟩

/-- Modelled from the spec: `EventEmitter.emit` (events.py) schedules every
handler registered under the name, in registration order; a name with zero
subscribers schedules nothing. The result is the scheduled handler list. -/
def EventEmitter.emit (em : EventEmitter) (name : String) : List ℕ :=
  match lookupKey name em.listeners with
  | Option.none => []
  | some hs => hs

/-- An emitter built by a sequence of `on` registrations, starting empty. -/
def subscribeAll (regs : List (String × ℕ)) : EventEmitter :=
  regs.foldl (fun em r => em.on r.1 r.2) ⟨[]⟩

/-! ## Lifecycle manager state

Modelled from the spec: the `GladiaSttAgent` lifecycle manager
(gladia_stt_agent.py, not shipped under src/). STT streams and tasks are
identified by numeric handles; `next_id` mints fresh handles.
-/

structure ParticipantSettings where
  locale : Option String
  provider : Option String
deriving DecidableEq, Repr

structure PipelineHandle where
  stream : ℕ
  task : ℕ
deriving DecidableEq, Repr

structure AgentState where
  participant_settings : List (String × ParticipantSettings)
  processing_info : List (String × PipelineHandle)
  interim_results : Bool
  next_id : ℕ
deriving DecidableEq, Repr

/-- Externally observable side effects of a lifecycle operation. -/
inductive Effect where
  | cancelTask (task : ℕ)
  | updateLanguages (stream : ℕ) (langs : List String)
  | logError
  | logWarning
deriving DecidableEq, Repr

/-- A live participant as seen in the room roster. -/
structure Participant where
  identity : String
  hasAudioTrack : Bool
deriving DecidableEq, Repr

inductive TrackSource where
  | microphone
  | camera
  | screenShare
  | unknown
deriving DecidableEq, Repr

/-- Modelled from the spec: `stop_transcription_for_user` — unknown
participant is a no-op; otherwise cancel the pipeline task and remove the
`processing_info` entry. -/
def stop_transcription_for_user (st : AgentState) (p : String) : AgentState × List Effect :=
  match lookupKey p st.processing_info with
  | Option.none => (st, [])
  | some h =>
    ({ st with processing_info := eraseKey p st.processing_info }, [Effect.cancelTask h.task])

/-- Modelled from the spec: `update_locale_for_user` — no settings entry is a
no-op; otherwise store the new locale un-normalized, and when a pipeline is
active also request a session language update with the single-element
normalized list. -/
def update_locale_for_user (st : AgentState) (p newLocale : String) : AgentState × List Effect :=
  match lookupKey p st.participant_settings with
  | Option.none => (st, [])
  | some s =>
    let s₁ : ParticipantSettings := { s with locale := some newLocale }
    let st₁ := { st with participant_settings := insertKey p s₁ st.participant_settings }
    match lookupKey p st.processing_info with
    | Option.none => (st₁, [])
    | some h => (st₁, [Effect.updateLanguages h.stream [_sanitize_locale newLocale]])

/-- Modelled from the spec: `start_transcription_for_user` — resolve the
participant from the roster (error diagnostic when absent), require an audio
track (warning diagnostic when absent), skip when a pipeline is already
active, otherwise create the STT stream and pipeline task and persist the
settings actually used. -/
def start_transcription_for_user (st : AgentState) (roster : List Participant)
    (p locale provider : String) : AgentState × List Effect :=
  match roster.find? (fun part => part.identity == p) with
  | Option.none => (st, [Effect.logError])
  | some part =>
    if !part.hasAudioTrack then (st, [Effect.logWarning])
    else
      match lookupKey p st.processing_info with
      | some _ => (st, [])
      | Option.none =>
        let handle : PipelineHandle := { stream := st.next_id, task := st.next_id + 1 }
        ({ st with
            processing_info := insertKey p handle st.processing_info,
            participant_settings :=
              insertKey p { locale := some locale, provider := some provider }
                st.participant_settings,
            next_id := st.next_id + 2 },
         [])

/-- Modelled from the spec: `_on_track_subscribed` — ignored unless the
source is a microphone; ignored when settings are absent or missing either
locale or provider; otherwise start transcription with the stored locale and
provider. The result is the start invocation made, if any. -/
def _on_track_subscribed (st : AgentState) (source : TrackSource) (p : String) :
    Option (String × String × String) :=
  if source ≠ TrackSource.microphone then Option.none
  else
    match lookupKey p st.participant_settings with
    | Option.none => Option.none
    | some s =>
      match s.locale, s.provider with
      | some l, some pr => some (p, l, pr)
      | _, _ => Option.none

/-! ## Transcription pipeline runner

Modelled from the spec: `_run_transcription_pipeline` (gladia_stt_agent.py,
not shipped under src/). The audio side is a stream of frames that may raise
mid-iteration; the STT side is a stream of transcript events that may raise
mid-iteration.
-/

inductive SttKind where
  | interim
  | final
deriving DecidableEq, Repr

structure SttEvent where
  kind : SttKind
  payload : ℕ
deriving DecidableEq, Repr

/-- One step of an asynchronous stream: an item, or an exception raised at
this point of the iteration. -/
inductive StreamItem (α : Type) where
  | item (a : α)
  | raiseCancelled
  | raiseError
deriving DecidableEq, Repr

/-- A transcript event emitted on the event bus: `{participant, event}` under
an event name. -/
structure Emission where
  event_name : String
  participant : String
  event : SttEvent
deriving DecidableEq, Repr

inductive PipelineExn where
  | cancelled
  | failure
deriving DecidableEq, Repr

/-- Drain the audio side: push each frame; an exception raised by the stream
propagates out of the loop. -/
def drainAudio : List (StreamItem Unit) → Option PipelineExn
  | [] => Option.none
  | StreamItem.item _ :: rest => drainAudio rest
  | StreamItem.raiseCancelled :: _ => some PipelineExn.cancelled
  | StreamItem.raiseError :: _ => some PipelineExn.failure

/-- Emissions produced for one STT output event: a final event is always
emitted as `final_transcript`; an interim event is emitted as
`interim_transcript` only when interim results are enabled, and silently
dropped otherwise. -/
def handleEvent (interimEnabled : Bool) (p : String) (e : SttEvent) : List Emission :=
  match e.kind with
  | SttKind.final => [⟨"final_transcript", p, e⟩]
  | SttKind.interim => if interimEnabled then [⟨"interim_transcript", p, e⟩] else []

/-- Drain the STT output side, collecting emissions until the stream ends or
raises. -/
def drainEvents (interimEnabled : Bool) (p : String) :
    List (StreamItem SttEvent) → List Emission × Option PipelineExn
  | [] => ([], Option.none)
  | StreamItem.item e :: rest =>
    let r := drainEvents interimEnabled p rest
    (handleEvent interimEnabled p e ++ r.1, r.2)
  | StreamItem.raiseCancelled :: _ => ([], some PipelineExn.cancelled)
  | StreamItem.raiseError :: _ => ([], some PipelineExn.failure)

/-- The try-block body of the pipeline: forward audio, then drain STT output;
the first exception raised on either side escapes the body. -/
def pipeline_body (interimEnabled : Bool) (p : String) (audio : List (StreamItem Unit))
    (events : List (StreamItem SttEvent)) : List Emission × Option PipelineExn :=
  match drainAudio audio with
  | some exn => ([], some exn)
  | Option.none => drainEvents interimEnabled p events

/-- Items of a stream before its first raised exception. -/
def itemsBefore {α : Type} : List (StreamItem α) → List α
  | [] => []
  | StreamItem.item a :: rest => a :: itemsBefore rest
  | StreamItem.raiseCancelled :: _ => []
  | StreamItem.raiseError :: _ => []

/-- Modelled from the spec: `_run_transcription_pipeline` — run the pipeline
body under `try/except CancelledError/except Exception/finally`: cancellation
and any other failure are caught (never re-raised to the caller), and the
`finally` block removes the participant's `processing_info` entry on every
exit path. An `Except.error` result would model an exception escaping to the
caller. -/
def _run_transcription_pipeline (st : AgentState) (p : String)
    (audio : List (StreamItem Unit)) (events : List (StreamItem SttEvent)) :
    Except PipelineExn (AgentState × List Emission) :=
  match pipeline_body st.interim_results p audio events with
  | (ems, some PipelineExn.cancelled) =>
    Except.ok ({ st with processing_info := eraseKey p st.processing_info }, ems)
  | (ems, some PipelineExn.failure) =>
    Except.ok ({ st with processing_info := eraseKey p st.processing_info }, ems)
  | (ems, Option.none) =>
    Except.ok ({ st with processing_info := eraseKey p st.processing_info }, ems)

/-! ## Concrete fixtures (used by witness theorems) -/

def handleW : PipelineHandle := ⟨0, 1⟩

def stEmpty : AgentState :=
  { participant_settings := [], processing_info := [], interim_results := false, next_id := 0 }

def stActive : AgentState :=
  { participant_settings := [], processing_info := [("user_1", handleW)],
    interim_results := false, next_id := 2 }

def stErased : AgentState :=
  { participant_settings := [], processing_info := [], interim_results := false, next_id := 2 }

def settingsEn : ParticipantSettings := { locale := some "en", provider := some "gladia" }

def settingsNoLocale : ParticipantSettings :=
  { locale := Option.none, provider := some "gladia" }

def stSettings : AgentState :=
  { participant_settings := [("user_1", settingsEn)], processing_info := [],
    interim_results := false, next_id := 0 }

def stSettingsActive : AgentState :=
  { participant_settings := [("user_1", settingsEn)], processing_info := [("user_1", handleW)],
    interim_results := false, next_id := 2 }

def stNoLocale : AgentState :=
  { participant_settings := [("user_1", settingsNoLocale)], processing_info := [],
    interim_results := false, next_id := 0 }

def rosterW : List Participant := [{ identity := "user_1", hasAudioTrack := true }]

def finalEventW : SttEvent := ⟨SttKind.final, 0⟩

def interimEventW : SttEvent := ⟨SttKind.interim, 1⟩

/-! ## Association-list lemmas -/

theorem lookupKey_insertKey {α : Type} (k k₁ : String) (v : α) (l : List (String × α)) :
    lookupKey k (insertKey k₁ v l) = if k₁ = k then some v else lookupKey k l := by
  induction l with
  | nil =>
    by_cases h : k₁ = k <;> simp [insertKey, lookupKey, h]
  | cons hd tl ih =>
    obtain ⟨k₂, v₂⟩ := hd
    by_cases h : k₂ = k₁
    · subst h
      by_cases h₂ : k₂ = k <;> simp [insertKey, lookupKey, h₂]
    · by_cases h₂ : k₂ = k
      · have h₃ : ¬ k₁ = k := by
          rw [← h₂]
          exact fun he => h he.symm
        have h₄ : ¬ k = k₁ := fun he => h₃ he.symm
        simp [insertKey, h, lookupKey, h₂, h₃, h₄]
      · simp [insertKey, h, lookupKey, h₂, ih]

theorem lookupKey_eraseKey_self {α : Type} (k : String) (l : List (String × α)) :
    lookupKey k (eraseKey k l) = Option.none := by
  induction l with
  | nil => simp [eraseKey, lookupKey]
  | cons hd tl ih =>
    obtain ⟨k₂, v₂⟩ := hd
    by_cases h : k₂ = k <;> simp [eraseKey, lookupKey, h, ih]

theorem lookupKey_eraseKey_ne {α : Type} (k k₁ : String) (hne : k₁ ≠ k)
    (l : List (String × α)) : lookupKey k (eraseKey k₁ l) = lookupKey k l := by
  induction l with
  | nil => simp [eraseKey]
  | cons hd tl ih =>
    obtain ⟨k₂, v₂⟩ := hd
    have h₀ : ¬ k = k₁ := fun he => hne he.symm
    by_cases h : k₂ = k₁
    · have h₂ : ¬ k₂ = k := by
        rw [h]
        exact hne
      simp [eraseKey, lookupKey, h, h₂, hne, ih]
    · by_cases h₂ : k₂ = k <;> simp [eraseKey, lookupKey, h, h₂, h₀, ih]

theorem countKey_eraseKey_self {α : Type} (k : String) (l : List (String × α)) :
    countKey k (eraseKey k l) = 0 := by
  induction l with
  | nil => simp [eraseKey, countKey]
  | cons hd tl ih =>
    obtain ⟨k₂, v₂⟩ := hd
    by_cases h : k₂ = k
    · simpa [eraseKey, h] using ih
    · simpa [eraseKey, countKey, List.filter_cons, h] using ih

/-! ## Locale normalizer lemmas -/

theorem char_toNat_ofNat_valid (n : ℕ) (h : n.isValidChar) : (Char.ofNat n).toNat = n := by
  simp [Char.ofNat, dif_pos h, Char.ofNatAux, Char.toNat, UInt32.toNat]

theorem char_toLower_toLower (c : Char) : c.toLower.toLower = c.toLower := by
  unfold Char.toLower
  by_cases h : c.toNat ≥ 65 ∧ c.toNat ≤ 90
  · rw [if_pos h]
    have hv : (c.toNat + 32).isValidChar := by
      constructor
      omega
    rw [char_toNat_ofNat_valid _ hv, if_neg (by omega)]
  · rw [if_neg h, if_neg h]

theorem char_toLower_eq_dash (c : Char) (h : c.toLower = '-') : c = '-' := by
  unfold Char.toLower at h
  by_cases hc : c.toNat ≥ 65 ∧ c.toNat ≤ 90
  · rw [if_pos hc] at h
    have hv : (c.toNat + 32).isValidChar := by
      constructor
      omega
    have h₁ := congrArg Char.toNat h
    rw [char_toNat_ofNat_valid _ hv] at h₁
    have hd : ('-' : Char).toNat = 45 := by decide
    rw [hd] at h₁
    omega
  · rwa [if_neg hc] at h

theorem takeUntilDash_of_not_mem (l : List Char) (h : '-' ∉ l) : takeUntilDash l = l := by
  induction l with
  | nil => rfl
  | cons c cs ih =>
    have hc : ¬ c = '-' := fun he => h (he ▸ List.mem_cons_self c cs)
    simp only [takeUntilDash, if_neg hc]
    rw [ih (fun hm => h (List.mem_cons_of_mem c hm))]

theorem not_mem_takeUntilDash (l : List Char) : '-' ∉ takeUntilDash l := by
  induction l with
  | nil => simp [takeUntilDash]
  | cons c cs ih =>
    by_cases hc : c = '-'
    · simp [takeUntilDash, hc]
    · simp only [takeUntilDash, if_neg hc]
      intro hm
      rcases List.mem_cons.mp hm with h | h
      · exact hc h.symm
      · exact ih h

theorem takeUntilDash_eq_takeWhile (l : List Char) :
    takeUntilDash l = l.takeWhile (fun c => decide (c ≠ '-')) := by
  induction l with
  | nil => rfl
  | cons c cs ih =>
    by_cases hc : c = '-' <;> simp [takeUntilDash, hc, List.takeWhile_cons, ih]

/-! ## Pipeline lemmas -/

theorem drainEvents_fst (b : Bool) (p : String) (evs : List (StreamItem SttEvent)) :
    (drainEvents b p evs).1 = ((itemsBefore evs).map (handleEvent b p)).flatten := by
  induction evs with
  | nil => rfl
  | cons hd tl ih =>
    cases hd with
    | item e => simp [drainEvents, itemsBefore, ih]
    | raiseCancelled => rfl
    | raiseError => rfl

/-! ## Event emitter lemmas -/

theorem EventEmitter.emit_on (em : EventEmitter) (m : String) (h : ℕ) (n : String) :
    (em.on m h).emit n = if m = n then em.emit n ++ [h] else em.emit n := by
  unfold EventEmitter.on EventEmitter.emit
  cases hm : lookupKey m em.listeners with
  | none =>
    simp only [lookupKey_insertKey]
    by_cases he : m = n
    · subst he
      simp [hm]
    · simp [he]
  | some hs =>
    simp only [lookupKey_insertKey]
    by_cases he : m = n
    · subst he
      simp [hm]
    · simp [he]

theorem emit_foldl (regs : List (String × ℕ)) (em : EventEmitter) (n : String) :
    ((regs.foldl (fun e r => e.on r.1 r.2) em).emit n)
      = em.emit n ++ (regs.filter (fun r => r.1 == n)).map Prod.snd := by
  induction regs generalizing em with
  | nil => simp
  | cons hd tl ih =>
    obtain ⟨m, h⟩ := hd
    simp only [List.foldl_cons, List.filter_cons]
    rw [ih]
    by_cases hm : m = n
    · subst hm
      simp [EventEmitter.emit_on]
    · simp [EventEmitter.emit_on, hm]

/-! ## Claim theorems -/

/-- C5: locale normalization maps a tag with a `-` separator to the lowercase
primary subtag (e.g. en-US to en, EN-US to en), lowercases a tag without a
separator unchanged (e.g. PT to pt), is total, and is idempotent. -/
theorem sanitize_locale_spec :
    (_sanitize_locale "en-US" = "en" ∧ _sanitize_locale "EN-US" = "en"
      ∧ _sanitize_locale "PT" = "pt") ∧
    (∀ s : String, '-' ∈ s.data →
      _sanitize_locale s = ⟨(s.data.takeWhile (fun c => decide (c ≠ '-'))).map Char.toLower⟩) ∧
    (∀ s : String, '-' ∉ s.data → _sanitize_locale s = ⟨s.data.map Char.toLower⟩) ∧
    (∀ s : String, _sanitize_locale (_sanitize_locale s) = _sanitize_locale s) := by
  have hmap : ∀ l : List Char, (l.map Char.toLower).map Char.toLower = l.map Char.toLower := by
    intro l
    rw [List.map_map]
    exact List.map_congr_left (fun c _ => char_toLower_toLower c)
  refine ⟨⟨by decide, by decide, by decide⟩, ?_, ?_, ?_⟩
  · intro s _
    unfold _sanitize_locale
    rw [takeUntilDash_eq_takeWhile]
  · intro s h
    unfold _sanitize_locale
    rw [takeUntilDash_of_not_mem _ h]
  · intro s
    have hnd : '-' ∉ (takeUntilDash s.data).map Char.toLower := by
      intro hm
      rcases List.mem_map.mp hm with ⟨c, hc, hlc⟩
      exact not_mem_takeUntilDash s.data (char_toLower_eq_dash c hlc ▸ hc)
    show (⟨(takeUntilDash ((takeUntilDash s.data).map Char.toLower)).map Char.toLower⟩ : String)
        = ⟨(takeUntilDash s.data).map Char.toLower⟩
    rw [takeUntilDash_of_not_mem _ hnd, hmap]

/-- C5 witness: the separator, no-separator and idempotence cases at concrete
locales. -/
theorem sanitize_locale_spec_witness :
    (('-' ∈ "fr-FR".data) ∧
      _sanitize_locale "fr-FR"
        = ⟨("fr-FR".data.takeWhile (fun c => decide (c ≠ '-'))).map Char.toLower⟩) ∧
    (('-' ∉ "de".data) ∧ _sanitize_locale "de" = ⟨"de".data.map Char.toLower⟩) ∧
    _sanitize_locale (_sanitize_locale "zh-CN") = _sanitize_locale "zh-CN" :=
  ⟨⟨by decide, sanitize_locale_spec.2.1 "fr-FR" (by decide)⟩,
    ⟨by decide, sanitize_locale_spec.2.2.1 "de" (by decide)⟩,
    sanitize_locale_spec.2.2.2 "zh-CN"⟩

/-- C7: stopping a participant with no active pipeline changes nothing and
raises nothing; stopping an active participant cancels its task exactly once
and removes exactly its `processing_info` entry, leaving settings and other
participants' entries untouched. -/
theorem stop_transcription_spec (st : AgentState) (p : String) :
    (lookupKey p st.processing_info = Option.none →
      stop_transcription_for_user st p = (st, [])) ∧
    (∀ h : PipelineHandle, lookupKey p st.processing_info = some h →
      (stop_transcription_for_user st p).2 = [Effect.cancelTask h.task] ∧
      lookupKey p (stop_transcription_for_user st p).1.processing_info = Option.none ∧
      countKey p (stop_transcription_for_user st p).1.processing_info = 0 ∧
      (∀ q, q ≠ p → lookupKey q (stop_transcription_for_user st p).1.processing_info
          = lookupKey q st.processing_info) ∧
      (stop_transcription_for_user st p).1.participant_settings = st.participant_settings) := by
  constructor
  · intro hnone
    unfold stop_transcription_for_user
    rw [hnone]
  · intro h hh
    have hstop : stop_transcription_for_user st p
        = ({ st with processing_info := eraseKey p st.processing_info },
            [Effect.cancelTask h.task]) := by
      unfold stop_transcription_for_user
      rw [hh]
    refine ⟨by rw [hstop], ?_, ?_, ?_, by rw [hstop]⟩
    · rw [hstop]
      exact lookupKey_eraseKey_self p st.processing_info
    · rw [hstop]
      exact countKey_eraseKey_self p st.processing_info
    · intro q hq
      rw [hstop]
      exact lookupKey_eraseKey_ne q p (fun he => hq he.symm) st.processing_info

/-- C7 witness: stopping an unknown participant is a no-op, and stopping an
active one cancels its task and empties its entry. -/
theorem stop_transcription_spec_witness :
    stop_transcription_for_user stEmpty "ghost" = (stEmpty, []) ∧
    (stop_transcription_for_user stActive "user_1").2 = [Effect.cancelTask 1] :=
  ⟨(stop_transcription_spec stEmpty "ghost").1 rfl,
    ((stop_transcription_spec stActive "user_1").2 handleW rfl).1⟩

/-- C8: emitting an event name schedules exactly the handlers registered
under that name, in registration order, and skips handlers of other names;
a name with zero registered handlers schedules nothing and is not an error. -/
theorem emit_spec (regs : List (String × ℕ)) (n : String) :
    (subscribeAll regs).emit n = (regs.filter (fun r => r.1 == n)).map Prod.snd ∧
    (regs.filter (fun r => r.1 == n) = [] → (subscribeAll regs).emit n = []) := by
  have h := emit_foldl regs ⟨[]⟩ n
  have hempty : EventEmitter.emit ⟨[]⟩ n = [] := rfl
  rw [subscribeAll]
  constructor
  · rw [h, hempty, List.nil_append]
  · intro hf
    rw [h, hempty, List.nil_append, hf]
    rfl

/-- C8 witness: two handlers under one name fire in registration order, a
handler under another name does not cross-fire, and an unregistered name is
a no-op. -/
theorem emit_spec_witness :
    (subscribeAll [("click", 1), ("other", 2), ("click", 3)]).emit "click" = [1, 3] ∧
    (subscribeAll [("click", 1), ("other", 2), ("click", 3)]).emit "no_listeners" = [] := by
  constructor
  · have h := (emit_spec [("click", 1), ("other", 2), ("click", 3)] "click").1
    rw [h]
    rfl
  · exact (emit_spec [("click", 1), ("other", 2), ("click", 3)] "no_listeners").2 rfl

/-- C9: `coerce_partial_utterances` is total and always returns a bool: a
bool unchanged, an int or float compared against zero, a recognized truthy or
falsy flag word (after strip and lowercase) mapped to its bool, and every
other value (None, other objects, unrecognized strings) mapped to the
default. -/
theorem coerce_partial_utterances_spec (d : Bool) :
    (∀ b : Bool, coerce_partial_utterances (PyValue.bool b) d = b) ∧
    (∀ n : ℤ, coerce_partial_utterances (PyValue.int n) d = decide (n ≠ 0)) ∧
    (∀ q : ℚ, coerce_partial_utterances (PyValue.float q) d = decide (q ≠ 0)) ∧
    (∀ s : String, strToLower (pyStrip s) ∈ truthyStrings →
      coerce_partial_utterances (PyValue.str s) d = true) ∧
    (∀ s : String, strToLower (pyStrip s) ∈ falsyStrings →
      coerce_partial_utterances (PyValue.str s) d = false) ∧
    (∀ s : String, strToLower (pyStrip s) ∉ truthyStrings →
      strToLower (pyStrip s) ∉ falsyStrings →
      coerce_partial_utterances (PyValue.str s) d = d) ∧
    coerce_partial_utterances PyValue.none d = d ∧
    coerce_partial_utterances PyValue.other d = d := by
  refine ⟨fun b => rfl, fun n => rfl, fun q => rfl, ?_, ?_, ?_, rfl, rfl⟩
  · intro s h
    simp [coerce_partial_utterances, h]
  · intro s h
    have ht : strToLower (pyStrip s) ∉ truthyStrings := by
      intro ht
      simp only [truthyStrings, falsyStrings, List.mem_cons, List.not_mem_nil, or_false]
        at h ht
      rcases h with h | h | h | h | h <;> rw [h] at ht <;>
        rcases ht with ht | ht | ht | ht | ht <;> exact absurd ht (by decide)
    simp [coerce_partial_utterances, h, ht]
  · intro s ht hf
    simp [coerce_partial_utterances, ht, hf]

/-- C9 witness: the string, int and fallback cases at concrete inputs. -/
theorem coerce_partial_utterances_spec_witness :
    coerce_partial_utterances (PyValue.str "  TRUE  ") false = true ∧
    coerce_partial_utterances (PyValue.str "no") true = false ∧
    coerce_partial_utterances (PyValue.str "maybe") true = true ∧
    coerce_partial_utterances (PyValue.int (-1)) false = true ∧
    coerce_partial_utterances PyValue.none true = true :=
  ⟨(coerce_partial_utterances_spec false).2.2.2.1 "  TRUE  " (by decide),
    (coerce_partial_utterances_spec true).2.2.2.2.1 "no" (by decide),
    (coerce_partial_utterances_spec true).2.2.2.2.2.1 "maybe" (by decide) (by decide),
    (coerce_partial_utterances_spec false).2.1 (-1),
    (coerce_partial_utterances_spec true).2.2.2.2.2.2.1⟩

/-- C10: `coerce_min_utterance_length_seconds` never raises and, for a
non-negative default, always returns a non-negative value: None and the empty
string return the default without parsing, unparsable values return the
default, negative parses are clamped to the default, and non-negative parses
are returned as parsed. -/
theorem coerce_min_utterance_spec (d : ℚ) (hd : 0 ≤ d) :
    (∀ v : PyValue, 0 ≤ coerce_min_utterance_length_seconds v d) ∧
    coerce_min_utterance_length_seconds PyValue.none d = d ∧
    coerce_min_utterance_length_seconds (PyValue.str "") d = d ∧
    (∀ v : PyValue, v ≠ PyValue.none → v ≠ PyValue.str "" → pyFloat v = Option.none →
      coerce_min_utterance_length_seconds v d = d) ∧
    (∀ (v : PyValue) (q : ℚ), pyFloat v = some q → q < 0 →
      coerce_min_utterance_length_seconds v d = d) ∧
    (∀ (v : PyValue) (q : ℚ), v ≠ PyValue.none → v ≠ PyValue.str "" →
      pyFloat v = some q → 0 ≤ q →
      coerce_min_utterance_length_seconds v d = q) := by
  refine ⟨?_, rfl, rfl, ?_, ?_, ?_⟩
  · intro v
    unfold coerce_min_utterance_length_seconds
    by_cases hg : v = PyValue.none ∨ v = PyValue.str ""
    · rw [if_pos hg]
      exact hd
    · rw [if_neg hg]
      cases hq : pyFloat v with
      | none => exact hd
      | some q =>
        show 0 ≤ if q < 0 then d else q
        by_cases hlt : q < 0
        · rw [if_pos hlt]
          exact hd
        · rw [if_neg hlt]
          exact le_of_not_lt hlt
  · intro v hv₁ hv₂ hq
    unfold coerce_min_utterance_length_seconds
    rw [if_neg (by simp [hv₁, hv₂]), hq]
  · intro v q hq hlt
    unfold coerce_min_utterance_length_seconds
    by_cases hg : v = PyValue.none ∨ v = PyValue.str ""
    · rw [if_pos hg]
    · rw [if_neg hg, hq]
      show (if q < 0 then d else q) = d
      rw [if_pos hlt]
  · intro v q hv₁ hv₂ hq hle
    unfold coerce_min_utterance_length_seconds
    rw [if_neg (by simp [hv₁, hv₂]), hq]
    show (if q < 0 then d else q) = q
    rw [if_neg (not_lt.mpr hle)]

/-- C10 witness: the parse, clamp, fallback and guard cases at concrete
inputs with a non-negative default. -/
theorem coerce_min_utterance_spec_witness :
    coerce_min_utterance_length_seconds (PyValue.str "2") 0 = 2 ∧
    coerce_min_utterance_length_seconds (PyValue.str "-3") 2 = 2 ∧
    coerce_min_utterance_length_seconds (PyValue.str "not_a_number") 2 = 2 ∧
    coerce_min_utterance_length_seconds PyValue.none 2 = 2 ∧
    0 ≤ coerce_min_utterance_length_seconds (PyValue.int (-4)) 2 :=
  ⟨(coerce_min_utterance_spec 0 (by norm_num)).2.2.2.2.2 (PyValue.str "2") 2
      (by decide) (by decide) (by decide) (by norm_num),
    (coerce_min_utterance_spec 2 (by norm_num)).2.2.2.2.1 (PyValue.str "-3") (-3)
      (by decide) (by norm_num),
    (coerce_min_utterance_spec 2 (by norm_num)).2.2.2.1 (PyValue.str "not_a_number")
      (by decide) (by decide) (by decide),
    (coerce_min_utterance_spec 2 (by norm_num)).2.1,
    (coerce_min_utterance_spec 2 (by norm_num)).1 (PyValue.int (-4))⟩

/-- C1: starting transcription for a participant that already has an active
`processing_info` entry returns without mutating the registry: the map is
left untouched, so the participant still has exactly one entry and that
entry still holds the original handle (same task), not a replacement. -/
theorem start_transcription_idempotent (st : AgentState) (roster : List Participant)
    (p locale provider : String) (h : PipelineHandle)
    (hp : lookupKey p st.processing_info = some h)
    (hc : countKey p st.processing_info = 1) :
    (start_transcription_for_user st roster p locale provider).1.processing_info
        = st.processing_info ∧
    lookupKey p (start_transcription_for_user st roster p locale provider).1.processing_info
        = some h ∧
    countKey p (start_transcription_for_user st roster p locale provider).1.processing_info
        = 1 := by
  have hmain : (start_transcription_for_user st roster p locale provider).1.processing_info
      = st.processing_info := by
    unfold start_transcription_for_user
    cases hf : roster.find? (fun part => part.identity == p) with
    | none => rfl
    | some part =>
      by_cases ht : part.hasAudioTrack
      · simp [ht, hp]
      · simp [ht]
  exact ⟨hmain, hmain ▸ hp, hmain ▸ hc⟩

/-- C1 witness: a duplicate start for an already-active participant leaves
its original handle in place. -/
theorem start_transcription_idempotent_witness :
    lookupKey "user_1" (start_transcription_for_user stActive rosterW
        "user_1" "en-US" "gladia").1.processing_info = some handleW :=
  (start_transcription_idempotent stActive rosterW "user_1" "en-US" "gladia" handleW
      rfl rfl).2.1

/-- C2: every pipeline run returns normally whatever the two streams do —
normal completion, cancellation while reading audio, or any other failure on
either side is caught — and afterwards the participant has no
`processing_info` entry while every other participant's entry and the
settings registry are untouched. -/
theorem run_transcription_pipeline_cleanup (st : AgentState) (p : String)
    (audio : List (StreamItem Unit)) (events : List (StreamItem SttEvent)) :
    _run_transcription_pipeline st p audio events
      = Except.ok ({ st with processing_info := eraseKey p st.processing_info },
          (pipeline_body st.interim_results p audio events).1) ∧
    ∀ st₁ ems, _run_transcription_pipeline st p audio events = Except.ok (st₁, ems) →
      lookupKey p st₁.processing_info = Option.none ∧
      countKey p st₁.processing_info = 0 ∧
      (∀ q, q ≠ p → lookupKey q st₁.processing_info = lookupKey q st.processing_info) ∧
      st₁.participant_settings = st.participant_settings := by
  have hrun : _run_transcription_pipeline st p audio events
      = Except.ok ({ st with processing_info := eraseKey p st.processing_info },
          (pipeline_body st.interim_results p audio events).1) := by
    unfold _run_transcription_pipeline
    rcases hx : pipeline_body st.interim_results p audio events with ⟨ems, exn⟩
    cases exn with
    | none => rfl
    | some e => cases e <;> rfl
  refine ⟨hrun, ?_⟩
  intro st₁ ems heq
  rw [hrun] at heq
  injection heq with heq₁
  injection heq₁ with heq₂ heq₃
  rw [← heq₂]
  refine ⟨lookupKey_eraseKey_self p st.processing_info,
    countKey_eraseKey_self p st.processing_info, ?_, rfl⟩
  intro q hq
  exact lookupKey_eraseKey_ne q p (fun he => hq he.symm) st.processing_info

/-- C2 witness: an audio stream that raises cancellation still yields a
normal return with the participant's entry removed. -/
theorem run_transcription_pipeline_cleanup_witness :
    lookupKey "user_1" (AgentState.processing_info stErased) = Option.none :=
  ((run_transcription_pipeline_cleanup stActive "user_1"
      [StreamItem.raiseCancelled] []).2 stErased [] rfl).1

/-- C3: per STT output event, a final event is always emitted as
`final_transcript` carrying the participant and the event; an interim event
is emitted as `interim_transcript` exactly when interim results were enabled
at pipeline start and silently dropped otherwise; and a pipeline run whose
audio side completes emits, in order, exactly the per-event emissions of the
events drained before any failure. -/
theorem pipeline_event_emission (flag : Bool) (p : String) :
    (∀ e : SttEvent, e.kind = SttKind.final →
      handleEvent flag p e = [⟨"final_transcript", p, e⟩]) ∧
    (∀ e : SttEvent, e.kind = SttKind.interim → flag = true →
      handleEvent flag p e = [⟨"interim_transcript", p, e⟩]) ∧
    (∀ e : SttEvent, e.kind = SttKind.interim → flag = false →
      handleEvent flag p e = []) ∧
    (∀ (st : AgentState) (audio : List (StreamItem Unit))
        (events : List (StreamItem SttEvent)),
      st.interim_results = flag → drainAudio audio = Option.none →
      _run_transcription_pipeline st p audio events
        = Except.ok ({ st with processing_info := eraseKey p st.processing_info },
            ((itemsBefore events).map (handleEvent flag p)).flatten)) := by
  refine ⟨?_, ?_, ?_, ?_⟩
  · intro e hk
    simp [handleEvent, hk]
  · intro e hk hf
    simp [handleEvent, hk, hf]
  · intro e hk hf
    simp [handleEvent, hk, hf]
  · intro st audio events hflag haudio
    subst hflag
    have hbody : pipeline_body st.interim_results p audio events
        = drainEvents st.interim_results p events := by
      unfold pipeline_body
      rw [haudio]
    unfold _run_transcription_pipeline
    rw [hbody, ← drainEvents_fst]
    rcases hx : drainEvents st.interim_results p events with ⟨ems, exn⟩
    cases exn with
    | none => rfl
    | some e => cases e <;> rfl

/-- C3 witness: with interim results disabled, a run over one final and one
interim event emits exactly one `final_transcript` and no
`interim_transcript`. -/
theorem pipeline_event_emission_witness :
    _run_transcription_pipeline stActive "user_1" []
        [StreamItem.item finalEventW, StreamItem.item interimEventW]
      = Except.ok (stErased, [⟨"final_transcript", "user_1", finalEventW⟩]) :=
  (pipeline_event_emission false "user_1").2.2.2 stActive []
    [StreamItem.item finalEventW, StreamItem.item interimEventW] rfl rfl

/-- C4: updating the locale of a participant with no settings entry is a
no-op; with a settings entry it stores the new locale un-normalized and
leaves other participants' settings and the active registry unchanged;
additionally, when the participant has an active pipeline it issues exactly
one session language update carrying the single-element normalized list, and
when not active it issues no session call. -/
theorem update_locale_spec (st : AgentState) (p l : String) :
    (lookupKey p st.participant_settings = Option.none →
      update_locale_for_user st p l = (st, [])) ∧
    (∀ s : ParticipantSettings, lookupKey p st.participant_settings = some s →
      lookupKey p (update_locale_for_user st p l).1.participant_settings
          = some { s with locale := some l } ∧
      (∀ q, q ≠ p → lookupKey q (update_locale_for_user st p l).1.participant_settings
          = lookupKey q st.participant_settings) ∧
      (update_locale_for_user st p l).1.processing_info = st.processing_info ∧
      (∀ h : PipelineHandle, lookupKey p st.processing_info = some h →
        (update_locale_for_user st p l).2
            = [Effect.updateLanguages h.stream [_sanitize_locale l]]) ∧
      (lookupKey p st.processing_info = Option.none →
        (update_locale_for_user st p l).2 = [])) := by
  constructor
  · intro hnone
    unfold update_locale_for_user
    rw [hnone]
  · intro s hs
    have hset : (update_locale_for_user st p l).1.participant_settings
        = insertKey p { s with locale := some l } st.participant_settings := by
      unfold update_locale_for_user
      rw [hs]
      cases hx : lookupKey p st.processing_info <;> rfl
    have hproc : (update_locale_for_user st p l).1.processing_info
        = st.processing_info := by
      unfold update_locale_for_user
      rw [hs]
      cases hx : lookupKey p st.processing_info <;> rfl
    refine ⟨?_, ?_, hproc, ?_, ?_⟩
    · rw [hset, lookupKey_insertKey]
      simp
    · intro q hq
      have hpq : ¬ p = q := fun he => hq he.symm
      rw [hset, lookupKey_insertKey, if_neg hpq]
    · intro h hh
      unfold update_locale_for_user
      rw [hs, hh]
    · intro hnone
      unfold update_locale_for_user
      rw [hs, hnone]

/-- C4 witness: with an active pipeline the session update carries the
normalized single-element list; with no settings entry nothing happens. -/
theorem update_locale_spec_witness :
    (update_locale_for_user stSettingsActive "user_1" "de-DE").2
        = [Effect.updateLanguages 0 ["de"]] ∧
    update_locale_for_user stEmpty "unknown_user" "en" = (stEmpty, []) :=
  ⟨((update_locale_spec stSettingsActive "user_1" "de-DE").2 settingsEn rfl).2.2.2.1
      handleW rfl,
    (update_locale_spec stEmpty "unknown_user" "en").1 rfl⟩

/-- C6: a track-subscribed signal starts no pipeline when the source is not a
microphone, when the participant has no settings entry, or when the entry is
missing locale or provider; only a microphone source with both present leads
to a start call, with exactly the stored locale and provider. -/
theorem on_track_subscribed_spec (st : AgentState) (source : TrackSource) (p : String) :
    (source ≠ TrackSource.microphone → _on_track_subscribed st source p = Option.none) ∧
    (lookupKey p st.participant_settings = Option.none →
      _on_track_subscribed st source p = Option.none) ∧
    (∀ s : ParticipantSettings, lookupKey p st.participant_settings = some s →
      s.locale = Option.none ∨ s.provider = Option.none →
      _on_track_subscribed st source p = Option.none) ∧
    (∀ (s : ParticipantSettings) (l pr : String),
      source = TrackSource.microphone →
      lookupKey p st.participant_settings = some s →
      s.locale = some l → s.provider = some pr →
      _on_track_subscribed st source p = some (p, l, pr)) := by
  refine ⟨?_, ?_, ?_, ?_⟩
  · intro hsrc
    unfold _on_track_subscribed
    rw [if_pos hsrc]
  · intro hnone
    unfold _on_track_subscribed
    by_cases hsrc : source ≠ TrackSource.microphone
    · rw [if_pos hsrc]
    · rw [if_neg hsrc, hnone]
  · intro s hs hmiss
    unfold _on_track_subscribed
    by_cases hsrc : source ≠ TrackSource.microphone
    · rw [if_pos hsrc]
    · rw [if_neg hsrc, hs]
      rcases hmiss with hm | hm
      · simp [hm]
      · cases hl : s.locale <;> simp [hm, hl]
  · intro s l pr hsrc hs hl hpr
    unfold _on_track_subscribed
    rw [if_neg (by simp [hsrc]), hs]
    simp [hl, hpr]

/-- C6 witness: a microphone source with full settings starts with the stored
values; a camera source and a missing-locale entry do not. -/
theorem on_track_subscribed_spec_witness :
    _on_track_subscribed stSettings TrackSource.microphone "user_1"
        = some ("user_1", "en", "gladia") ∧
    _on_track_subscribed stSettings TrackSource.camera "user_1" = Option.none ∧
    _on_track_subscribed stNoLocale TrackSource.microphone "user_1" = Option.none :=
  ⟨(on_track_subscribed_spec stSettings TrackSource.microphone "user_1").2.2.2
      settingsEn "en" "gladia" rfl rfl rfl rfl,
    (on_track_subscribed_spec stSettings TrackSource.camera "user_1").1 (by decide),
    (on_track_subscribed_spec stNoLocale TrackSource.microphone "user_1").2.2.1
      settingsNoLocale rfl (Or.inl rfl)⟩

end BBBLivekitStt
